import Mathlib

/-!
Verification of the team-info collection pipeline in
`src/team_info_collector.py` (extraction → validation → aggregation →
multi-format rendering).

The Python source is shallowly embedded below.  Comment bodies are modelled
as `List Char` (Python `str`); Python regular-expression searches are
modelled by explicit scanning functions that implement the semantics of the
concrete patterns used by the source (`re.search` with
`\*\*<label>[：:]\*\*\s*(.+)` and `re.findall` with
`\|([^|]+)\|([^|]+)\|([^|]+)\|`); Python's stable `sorted` is modelled by a
stable insertion sort.  Python `\s` (and `str.strip`) are modelled over the
ASCII whitespace characters.
-/

namespace TeamCollector

/-- `TeamMember` dataclass (source lines 30-34). -/
structure TeamMember where
  name : String
  github_id : String
  github_url : String
deriving DecidableEq, Repr

/-- `TeamInfo` dataclass (source lines 37-45). -/
structure TeamInfo where
  team_name : String
  members : List TeamMember
  team_github_account : String
  team_repo_url : String
  submission_time : String
  comment_id : Int
  comment_author : String
deriving DecidableEq, Repr

/-- Python `\s` character class, restricted to ASCII whitespace. -/
def isPySpace (c : Char) : Bool :=
  c = ' ' || c = '\t' || c = '\n' || c = '\r' || c = '\x0B' || c = '\x0C'

/-- Python `str.strip()`: drop whitespace from both ends. -/
def pyStrip (cs : List Char) : List Char :=
  ((cs.dropWhile isPySpace).reverse.dropWhile isPySpace).reverse

/-! ### The member-table scanner

Model of `re.findall(r'\|([^|]+)\|([^|]+)\|([^|]+)\|', comment_body)`
(source lines 102-103): non-overlapping left-to-right matches, where a
match is an opening `|` followed by three cells, each a nonempty run of
non-`|` characters closed by a `|`. -/

/-- The `[^|]` character class. -/
def notPipe (c : Char) : Bool := c ≠ '|'

/-- The `.` character class (anything but a newline). -/
def notNL (c : Char) : Bool := c ≠ '\n'

/-- One regex cell `([^|]+)\|`: a nonempty run of non-pipe characters
followed by the closing pipe; returns the cell and the rest after the
closing pipe. -/
def takeCell (cs : List Char) : Option (List Char × List Char) :=
  match cs.dropWhile notPipe with
  | c :: rest =>
    if cs.takeWhile notPipe = [] then none
    else if c = '|' then some (cs.takeWhile notPipe, rest) else none
  | [] => none

/-- The three cells of one table-row match, after the opening pipe. -/
def tryRow (cs : List Char) :
    Option ((List Char × List Char × List Char) × List Char) :=
  match takeCell cs with
  | none => none
  | some (c1, r1) =>
    match takeCell r1 with
    | none => none
    | some (c2, r2) =>
      match takeCell r2 with
      | none => none
      | some (c3, r3) => some ((c1, c2, c3), r3)

/-- Fuelled scanner realising `re.findall`'s non-overlapping scan: try a
match at each position, and continue after the end of each match. -/
def scanAux : Nat → List Char → List (List Char × List Char × List Char)
  | 0, _ => []
  | _ + 1, [] => []
  | fuel + 1, c :: rest =>
    if c = '|' then
      match tryRow rest with
      | some (t, rest') => t :: scanAux fuel rest'
      | none => scanAux fuel rest
    else scanAux fuel rest

/-- All matches of the member-row pattern in a body. -/
def scanTriples (cs : List Char) : List (List Char × List Char × List Char) :=
  scanAux cs.length cs

/-! ### The labeled-field matcher

Model of `re.search(r'\*\*<label>[：:]\*\*\s*(.+)', comment_body)` for the
four labels used by `parse_team_info` (source lines 95, 120, 124, 128):
leftmost match wins; the captured group is the `(.+)` part. -/

/-- `\s*(.+)` at the start of `s`, trying the longest whitespace run first
and backtracking (the capture must start with a non-newline character and
extends greedily to the end of the line). `k` is the current candidate
length for the `\s*` part. -/
def wsDotAux (s : List Char) : Nat → Option (List Char)
  | 0 =>
    match s with
    | c :: _ => if c ≠ '\n' then some (s.takeWhile notNL) else none
    | [] => none
  | k + 1 =>
    match (s.drop (k + 1)).head? with
    | some c =>
      if c ≠ '\n' then some ((s.drop (k + 1)).takeWhile notNL)
      else wsDotAux s k
    | none => wsDotAux s k

/-- `\s*(.+)` at the start of `s`. -/
def matchWsDotPlus (s : List Char) : Option (List Char) :=
  wsDotAux s (s.takeWhile isPySpace).length

/-- After the literal `**<label>` part: `[：:]\*\*\s*(.+)`. -/
def matchAfterLabel : List Char → Option (List Char)
  | c :: '*' :: '*' :: rest =>
    if c = '：' ∨ c = ':' then matchWsDotPlus rest else none
  | _ => none

/-- Try the whole pattern at one position: the literal `**<label>` prefix
followed by `[：:]\*\*\s*(.+)`. -/
def tryLabelAt (lbl : List Char) (cs : List Char) : Option (List Char) :=
  if lbl <+: cs then matchAfterLabel (cs.drop lbl.length) else none

/-- `re.search` for one labeled-field pattern: leftmost matching position. -/
def reSearchField (lbl : List Char) : List Char → Option (List Char)
  | [] => none
  | c :: rest =>
    match tryLabelAt lbl (c :: rest) with
    | some g => some g
    | none => reSearchField lbl rest

/-! ### `parse_team_info` (source lines 86-145) -/

def submitMarker : List Char := "团队信息提交".toList
def nameMarker : List Char := "团队名称".toList
def teamNameLbl : List Char := "**团队名称".toList
def accountLbl : List Char := "**团队 GitHub 账户".toList
def repoLbl : List Char := "**团队项目仓库".toList
def timeLbl : List Char := "**提交时间".toList
def dashes : List Char := "---".toList

/-- Header-cell values skipped in the first column (source line 111). -/
def headerNameCells : List (List Char) :=
  ["成员姓名".toList, "-------".toList, "姓名".toList]

/-- Header-cell values skipped in the second column (source line 112). -/
def headerIdCells : List (List Char) :=
  ["个人 GitHub ID".toList, "-------".toList, "GitHub ID".toList]

/-- The member-row filter of the extraction loop (source lines 105-117):
strip the three cells, skip header/separator rows, and keep the row only
if all three stripped cells are nonempty. -/
def mkMember? (r : List Char × List Char × List Char) : Option TeamMember :=
  if pyStrip r.1 ∈ headerNameCells ∨ pyStrip r.2.1 ∈ headerIdCells ∨
      dashes <:+: pyStrip r.1 ∨ dashes <:+: pyStrip r.2.1 ∨
      dashes <:+: pyStrip r.2.2 then none
  else if pyStrip r.1 ≠ [] ∧ pyStrip r.2.1 ≠ [] ∧ pyStrip r.2.2 ≠ [] then
    some ⟨String.mk (pyStrip r.1), String.mk (pyStrip r.2.1),
      String.mk (pyStrip r.2.2)⟩
  else none

/-- The member rows surviving the filter, in source order. -/
def extractMembers (body : List Char) : List TeamMember :=
  (scanTriples body).filterMap mkMember?

/-- An optional labeled field: the stripped capture, or `""` when the
pattern does not match (source lines 120-129). -/
def fieldValue (lbl : List Char) (body : List Char) : String :=
  match reSearchField lbl body with
  | some g => String.mk (pyStrip g)
  | none => ""

/-- `parse_team_info` (source lines 86-145).  The `try`/`except` block of
the source cannot raise for any `str` input (it performs only regex
searches, `.strip()` and list appends), so the embedding is a total
function. -/
def parseChars (body : List Char) (comment_id : Int) (author : String) :
    Option TeamInfo :=
  if submitMarker <:+: body ∨ nameMarker <:+: body then
    match reSearchField teamNameLbl body with
    | none => none
    | some g =>
      if String.mk (pyStrip g) ≠ "" ∧ extractMembers body ≠ [] then
        some ⟨String.mk (pyStrip g), extractMembers body, fieldValue accountLbl body,
          fieldValue repoLbl body, fieldValue timeLbl body, comment_id, author⟩
      else none
  else none

/-- `parse_team_info` on a Python `str`. -/
def parse_team_info (body : String) (comment_id : Int) (author : String) :
    Option TeamInfo :=
  parseChars body.toList comment_id author

/-! ### `validate_teams` (source lines 484-518) -/

/-- The finding set returned by `validate_teams` (source lines 486-492):
four categories of descriptive strings plus the set of size-violating team
names.  The Python `set` is modelled as a list in which only membership is
meaningful. -/
structure ValidationIssues where
  missing_info : List String
  duplicate_teams : List String
  invalid_urls : List String
  member_count_issues : List String
  member_count_invalid_team_names : List String
deriving DecidableEq, Repr

def emptyIssues : ValidationIssues := ⟨[], [], [], [], []⟩

/-- Python `set.add`. -/
def addToSet (x : String) (s : List String) : List String :=
  if x ∈ s then s else s ++ [x]

/-- One iteration of the `for team in teams` loop of `validate_teams`
(source lines 496-516), acting on the accumulated issues and the seen-name
set `team_names`. -/
def validateStep (minM maxM : Int) (p : ValidationIssues × List String)
    (t : TeamInfo) : ValidationIssues × List String :=
  let i1 :=
    if t.team_name ∈ p.2 then
      { p.1 with duplicate_teams := p.1.duplicate_teams ++ [t.team_name] }
    else p.1
  let seen := addToSet t.team_name p.2
  let i2 :=
    if t.team_name = "" ∨ t.members = [] then
      { i1 with missing_info :=
          i1.missing_info ++ ["团队 " ++ t.team_name ++ " 信息不完整"] }
    else i1
  let i3 :=
    if (t.members.length : Int) < minM then
      { i2 with
        member_count_issues := i2.member_count_issues ++
          ["团队 " ++ t.team_name ++ " 成员数量过少 (" ++
            toString t.members.length ++ " < " ++ toString minM ++ ")"],
        member_count_invalid_team_names :=
          addToSet t.team_name i2.member_count_invalid_team_names }
    else if (t.members.length : Int) > maxM then
      { i2 with
        member_count_issues := i2.member_count_issues ++
          ["团队 " ++ t.team_name ++ " 成员数量过多 (" ++
            toString t.members.length ++ " > " ++ toString maxM ++ ")"],
        member_count_invalid_team_names :=
          addToSet t.team_name i2.member_count_invalid_team_names }
    else i2
  let i4 :=
    if t.team_repo_url ≠ "" ∧ ¬ ("https://github.com/".toList <+: t.team_repo_url.toList) then
      { i3 with invalid_urls :=
          i3.invalid_urls ++ ["团队 " ++ t.team_name ++ " 的仓库地址格式不正确"] }
    else i3
  (i4, seen)

/-- The loop of `validate_teams` over the remaining teams. -/
def validateLoop (minM maxM : Int) :
    List TeamInfo → ValidationIssues × List String → ValidationIssues × List String
  | [], p => p
  | t :: ts, p => validateLoop minM maxM ts (validateStep minM maxM p t)

/-- `validate_teams` (source lines 484-518).  The loop body performs only
membership tests, list appends and string formatting, so the embedding is a
total function: validation never raises. -/
def validate_teams (teams : List TeamInfo) (minM maxM : Int) : ValidationIssues :=
  (validateLoop minM maxM teams (emptyIssues, [])).1

/-! ### Sorting and rendering -/

/-- Insert a team after every already-placed team having at least as many
members.  Together with `sort_teams_by_member_count` this is a stable
insertion sort — the extensional behaviour of Python's stable
`sorted(teams, key=lambda team: len(team.members), reverse=True)`, the
expression used at source lines 172, 265, 355, 395 and 522. -/
def insertByCount (t : TeamInfo) : List TeamInfo → List TeamInfo
  | [] => [t]
  | u :: us =>
    if t.members.length < u.members.length then u :: insertByCount t us
    else t :: u :: us

/-- `sort_teams_by_member_count` (source lines 520-522). -/
def sort_teams_by_member_count : List TeamInfo → List TeamInfo
  | [] => []
  | t :: ts => insertByCount t (sort_teams_by_member_count ts)

/-- `', '.join(f"{member.name}(@{member.github_id})" ...)` (source lines
186, 291, 427). -/
def membersText (t : TeamInfo) : String :=
  String.intercalate (", ") (t.members.map (fun m => m.name ++ "(@" ++ m.github_id ++ ")"))

/-- The team-level table rows shared by `export_to_csv` (lines 185-196) and
`export_to_markdown` (lines 290-294), whose loop bodies build the identical
list `[str(idx), name+mark, str(len(members)), members_text, account, repo]`. -/
def teamRowsLoop (inv : List String) : Nat → List TeamInfo → List (List String)
  | _, [] => []
  | idx, t :: ts =>
    [toString idx,
     t.team_name ++ (if t.team_name ∈ inv then "⚠️" else ""),
     toString t.members.length, membersText t,
     t.team_github_account, t.team_repo_url] :: teamRowsLoop inv (idx + 1) ts

/-- The member-level rows of one team, with the running member number.  The
row shape `[str(idx), team_name, name, github_id, github_url, account,
repo, submission_time, author]` is shared by `export_members_to_csv`
(lines 209-215) and the member table of `export_to_markdown` (lines
300-305). -/
def memberRowsOfTeam (t : TeamInfo) : Nat → List TeamMember → List (List String)
  | _, [] => []
  | idx, m :: ms =>
    [toString idx, t.team_name, m.name, m.github_id, m.github_url,
     t.team_github_account, t.team_repo_url, t.submission_time,
     t.comment_author] :: memberRowsOfTeam t (idx + 1) ms

/-- The nested `for team in …: for member in team.members:` loop producing
member-level rows with a running number starting at 1. -/
def memberRowsAll : Nat → List TeamInfo → List (List String)
  | _, [] => []
  | idx, t :: ts =>
    memberRowsOfTeam t idx t.members ++ memberRowsAll (idx + t.members.length) ts

/-- The data rows written by `export_to_csv` (source lines 168-197): the
warning block when size issues exist, the header, then one row per team in
sorted order. -/
def export_to_csv_rows (teams : List TeamInfo) (inv mci : List String) :
    List (List String) :=
  (if mci = [] then []
   else [["⚠️ 警告：以下团队成员数量不合规"]] ++ mci.map (fun w => [w]) ++ [[]]) ++
  ["团队编号", "团队名称", "成员数量", "团队成员", "团队GitHub账户", "团队仓库地址"] ::
  teamRowsLoop inv 1 (sort_teams_by_member_count teams)

/-- The data rows written by `export_members_to_csv` (source lines
199-216): the header, then one row per member, iterating the teams in
input order (this export does not sort). -/
def export_members_to_csv_rows (teams : List TeamInfo) : List (List String) :=
  ["成员编号", "团队名称", "成员姓名", "GitHub ID", "GitHub 链接",
   "团队GitHub账户", "团队仓库地址", "提交时间", "评论作者"] ::
  memberRowsAll 1 teams

/-- The team-level table rows of the Markdown report (source lines 290-294). -/
def export_to_markdown_team_rows (teams : List TeamInfo) (inv : List String) :
    List (List String) :=
  teamRowsLoop inv 1 (sort_teams_by_member_count teams)

/-- The member-level table rows of the Markdown report (source lines
300-305): one row per member, iterating `sorted_teams`. -/
def export_to_markdown_member_rows (teams : List TeamInfo) : List (List String) :=
  memberRowsAll 1 (sort_teams_by_member_count teams)

/-- The per-team card data of `_generate_cards_view` (source lines
352-389): the sorted teams with their sequence numbers; the surrounding
HTML markup is string templating around exactly these fields. -/
def cardsLoop : Nat → List TeamInfo → List (Nat × TeamInfo)
  | _, [] => []
  | idx, t :: ts => (idx, t) :: cardsLoop (idx + 1) ts

def generate_cards_view (teams : List TeamInfo) : List (Nat × TeamInfo) :=
  cardsLoop 1 (sort_teams_by_member_count teams)

/-! ### State-passing models of the effectful calls

The renderers and the validator receive the caller's team list.  To state
frame conditions, each model returns the rendered content (or findings)
together with the caller-visible list after the call; the second component
is transcribed from the source, which binds fresh lists
(`sorted_teams = sorted(teams, …)`) and never assigns to or mutates
`teams` or its records. -/

def export_to_csv_model (teams : List TeamInfo) (inv mci : List String) :
    List (List String) × List TeamInfo :=
  (export_to_csv_rows teams inv mci, teams)

def export_to_markdown_model (teams : List TeamInfo) (inv : List String) :
    (List (List String) × List (List String)) × List TeamInfo :=
  ((export_to_markdown_team_rows teams inv, export_to_markdown_member_rows teams), teams)

def generate_cards_view_model (teams : List TeamInfo) :
    List (Nat × TeamInfo) × List TeamInfo :=
  (generate_cards_view teams, teams)

/-- The per-team data of `_generate_compact_table_view` (source lines
391-482): the sorted teams with their sequence numbers and size-violation
flags; the HTML table markup around these fields — and the member rows
derived from the same sorted list — is string templating over exactly
these records. -/
def compactLoop (inv : List String) :
    Nat → List TeamInfo → List (Nat × TeamInfo × Bool)
  | _, [] => []
  | idx, t :: ts =>
    (idx, t, decide (t.team_name ∈ inv)) :: compactLoop inv (idx + 1) ts

def generate_compact_table_view (teams : List TeamInfo) (inv : List String) :
    List (Nat × TeamInfo × Bool) :=
  compactLoop inv 1 (sort_teams_by_member_count teams)

/-- State-passing model of `_generate_compact_table_view`: its data
together with the caller's list after the call.  The source binds
`sorted_teams = sorted(teams, …)` — a fresh list — and only reads. -/
def generate_compact_table_view_model (teams : List TeamInfo)
    (inv : List String) : List (Nat × TeamInfo × Bool) × List TeamInfo :=
  (generate_compact_table_view teams inv, teams)

/-- State-passing model of `export_to_html` (source lines 570-795): the
document data — the member rows of the markdown-derived full table
(`generate_markdown_content` iterates the sorted teams), the compact table
view and the cards view — together with the caller's list after the call.
The source binds `sorted_teams = self.sort_teams_by_member_count(teams)`,
a fresh list, and only reads `teams` and its records. -/
def export_to_html_model (teams : List TeamInfo) (inv : List String) :
    (List (List String) × List (Nat × TeamInfo × Bool) × List (Nat × TeamInfo)) ×
      List TeamInfo :=
  ((memberRowsAll 1 (sort_teams_by_member_count teams),
    generate_compact_table_view teams inv, generate_cards_view teams), teams)

/-- The validation step of `main` (source lines 848-896): the issues are
computed from `teams`, and every subsequent export call receives the very
same `teams` value — validation is observational. -/
def validate_then_export_input (teams : List TeamInfo) (minM maxM : Int) :
    ValidationIssues × List TeamInfo :=
  (validate_teams teams minM maxM, teams)

/-! ### Auxiliary definitions used by the statements -/

/-- The descending comparison realised by the sort key
`key=len(members), reverse=True`. -/
def byCountDesc (a b : TeamInfo) : Prop :=
  b.members.length ≤ a.members.length

/-- The member-count finding produced for one submission by the validator
(source lines 507-512); `none` when the count is within the inclusive
bounds. -/
def memberCountMsg (minM maxM : Int) (t : TeamInfo) : Option String :=
  if (t.members.length : Int) < minM then
    some ("团队 " ++ t.team_name ++ " 成员数量过少 (" ++
      toString t.members.length ++ " < " ++ toString minM ++ ")")
  else if (t.members.length : Int) > maxM then
    some ("团队 " ++ t.team_name ++ " 成员数量过多 (" ++
      toString t.members.length ++ " > " ++ toString maxM ++ ")")
  else none

/-- The end-to-end example body of the spec (§8): the submission marker, the
team-name line with `Team Alpha`, a member table with a header row, a
separator row and three member rows, the account `team-alpha`, the
repository URL and the submission time `2025-01-15`. -/
def exampleBody : String :=
  "**团队信息提交**\n\n**团队名称：** Team Alpha\n\n| 成员姓名 | 个人 GitHub ID | GitHub 链接 |\n|------|------|------|\n| Alice | alice1 | https://github.com/alice1 |\n| Bob | bob2 | https://github.com/bob2 |\n| Carol | carol3 | https://github.com/carol3 |\n\n**团队 GitHub 账户：** team-alpha\n**团队项目仓库：** https://github.com/team-alpha/project\n**提交时间：** 2025-01-15\n"

/-- The submission the end-to-end example is expected to produce. -/
def exampleTeam : TeamInfo :=
  ⟨"Team Alpha",
   [⟨"Alice", "alice1", "https://github.com/alice1"⟩,
    ⟨"Bob", "bob2", "https://github.com/bob2"⟩,
    ⟨"Carol", "carol3", "https://github.com/carol3"⟩],
   "team-alpha", "https://github.com/team-alpha/project", "2025-01-15", 1, "alice-gh"⟩

/-- A team with `k` interchangeable members, for concrete ordering tests. -/
def dummyTeam (nm : String) (k : Nat) : TeamInfo :=
  ⟨nm, List.replicate k ⟨"m", "id", "url"⟩, "", "", "", 0, "a"⟩

/-- The team-name labeled line of the submission template. -/
def nameLine (name : List Char) : List Char :=
  "**团队名称：** ".toList ++ name

/-- One member row of the submission template's table. -/
def rowChars (r : List Char × List Char × List Char) : List Char :=
  '|' :: (r.1 ++ '|' :: (r.2.1 ++ '|' :: (r.2.2 ++ '|' :: '\n' :: [])))

/-- A well-formed submission template: the team-name line followed by one
table row per member. -/
def templateBody (name : List Char)
    (rows : List (List Char × List Char × List Char)) : List Char :=
  nameLine name ++ '\n' :: rows.flatMap rowChars

/-- The member record extracted from one well-formed row. -/
def rowMember (r : List Char × List Char × List Char) : TeamMember :=
  ⟨String.mk (pyStrip r.1), String.mk (pyStrip r.2.1), String.mk (pyStrip r.2.2)⟩

/-- A table cell free of structural characters and nonempty after
trimming. -/
def plainCell (c : List Char) : Prop :=
  (∀ ch ∈ c, ch ≠ '|' ∧ ch ≠ '*') ∧ pyStrip c ≠ []

/-- A member row without header/separator contamination. -/
def memberRowOk (r : List Char × List Char × List Char) : Prop :=
  plainCell r.1 ∧ plainCell r.2.1 ∧ plainCell r.2.2 ∧
  pyStrip r.1 ∉ headerNameCells ∧ pyStrip r.2.1 ∉ headerIdCells ∧
  ¬ dashes <:+: pyStrip r.1 ∧ ¬ dashes <:+: pyStrip r.2.1 ∧
  ¬ dashes <:+: pyStrip r.2.2

/-- A team name free of structural characters and nonempty after
trimming. -/
def plainName (name : List Char) : Prop :=
  (∀ ch ∈ name, ch ≠ '|' ∧ ch ≠ '*' ∧ ch ≠ '\n') ∧ pyStrip name ≠ []

/-- A minimal body containing a team name and one member row but none of
the optional fields. -/
def c6Body : List Char := "**团队名称：** X\n|a|b|c|".toList

/-- A concrete well-formed team name for instantiating the template
theorems. -/
def c5Name : List Char := "Team Alpha".toList

/-- A concrete well-formed member row list for instantiating the template
theorems. -/
def c5Rows : List (List Char × List Char × List Char) :=
  [("Alice".toList, "alice1".toList, "https://github.com/alice1".toList)]

/-- The submission extracted from `c6Body`. -/
def c6Team : TeamInfo := ⟨"X", [⟨"a", "b", "c"⟩], "", "", "", 7, "w"⟩

/-! ## Theorems -/

set_option maxRecDepth 100000 in
/-- C1: on the end-to-end example body, extraction yields exactly the
expected Submission — team name `Team Alpha`, the three members in row
order, and the optional fields verbatim — and validating it with the
inclusive bounds `min=1, max=5` yields the empty finding set. -/
theorem claim_C1_end_to_end :
    parse_team_info exampleBody 1 "alice-gh" = some exampleTeam ∧
      validate_teams [exampleTeam] 1 5 = emptyIssues := by
  decide

theorem mem_insertByCount (t u : TeamInfo) :
    ∀ l : List TeamInfo, u ∈ insertByCount t l ↔ u = t ∨ u ∈ l
  | [] => by simp [insertByCount]
  | v :: l => by
    rw [insertByCount]
    split
    · simp only [List.mem_cons, mem_insertByCount t u l]
      tauto
    · simp only [List.mem_cons]

theorem pairwise_insertByCount (t : TeamInfo) :
    ∀ l : List TeamInfo, l.Pairwise byCountDesc →
      (insertByCount t l).Pairwise byCountDesc
  | [], _ => by simp [insertByCount, byCountDesc]
  | u :: l, h => by
    rw [List.pairwise_cons] at h
    rw [insertByCount]
    split
    · rw [List.pairwise_cons]
      refine ⟨fun x hx => ?_, pairwise_insertByCount t l h.2⟩
      rcases (mem_insertByCount t x l).1 hx with rfl | hxl
      · exact Nat.le_of_lt (by assumption)
      · exact h.1 x hxl
    · rw [List.pairwise_cons]
      refine ⟨fun x hx => ?_, List.pairwise_cons.2 ⟨h.1, h.2⟩⟩
      rcases List.mem_cons.1 hx with rfl | hxl
      · exact Nat.le_of_not_lt (by assumption)
      · exact Nat.le_trans (h.1 x hxl) (Nat.le_of_not_lt (by assumption))

theorem sortTeams_pairwise :
    ∀ ts : List TeamInfo, (sort_teams_by_member_count ts).Pairwise byCountDesc
  | [] => by simp [sort_teams_by_member_count]
  | t :: ts =>
    pairwise_insertByCount t _ (sortTeams_pairwise ts)

theorem filter_insertByCount (t : TeamInfo) (n : Nat) :
    ∀ l : List TeamInfo,
      (insertByCount t l).filter (fun u => u.members.length == n) =
        (if t.members.length == n then [t] else []) ++
          l.filter (fun u => u.members.length == n)
  | [] => by
    by_cases ht : t.members.length = n <;> simp [insertByCount, ht]
  | u :: l => by
    rw [insertByCount]
    split
    · rename_i hc
      by_cases ht : t.members.length = n
      · have hu : u.members.length ≠ n := by omega
        simp [List.filter_cons, filter_insertByCount t n l, ht, hu]
      · simp [List.filter_cons, filter_insertByCount t n l, ht]
    · by_cases ht : t.members.length = n <;> simp [List.filter_cons, ht]

theorem sortTeams_filter (n : Nat) :
    ∀ ts : List TeamInfo,
      (sort_teams_by_member_count ts).filter (fun u => u.members.length == n) =
        ts.filter (fun u => u.members.length == n)
  | [] => rfl
  | t :: ts => by
    rw [sort_teams_by_member_count, filter_insertByCount, sortTeams_filter n ts,
      List.filter_cons]
    split <;> simp_all

/-- C2: the ordering used for rendering is a stable descending sort by
member count — the output is pairwise descending in member count, teams of
equal member count appear exactly as in the input (stability, stated as
filter-invariance for every member count), and for input team sizes
`[1, 4, 2]` the output sizes are `[4, 2, 1]`. -/
theorem claim_C2_stable_descending_sort :
    (∀ ts : List TeamInfo, (sort_teams_by_member_count ts).Pairwise byCountDesc) ∧
    (∀ (ts : List TeamInfo) (n : Nat),
      (sort_teams_by_member_count ts).filter (fun u => u.members.length == n) =
        ts.filter (fun u => u.members.length == n)) ∧
    (sort_teams_by_member_count
        [dummyTeam ("x") 1, dummyTeam ("y") 4, dummyTeam ("z") 2]).map
      (fun t => t.members.length) = [4, 2, 1] :=
  ⟨sortTeams_pairwise, fun ts n => sortTeams_filter n ts, by decide⟩

theorem mem_addToSet (x y : String) (s : List String) :
    y ∈ addToSet x s ↔ y = x ∨ y ∈ s := by
  rw [addToSet]
  split
  · constructor
    · exact fun h => Or.inr h
    · rintro (rfl | h) <;> assumption
  · simp [List.mem_append, or_comm]

theorem step_seen (m M : Int) (p : ValidationIssues × List String) (t : TeamInfo) :
    (validateStep m M p t).2 = addToSet t.team_name p.2 := by
  simp only [validateStep]

theorem step_dup (m M : Int) (p : ValidationIssues × List String) (t : TeamInfo) :
    (validateStep m M p t).1.duplicate_teams =
      p.1.duplicate_teams ++ (if t.team_name ∈ p.2 then [t.team_name] else []) := by
  simp only [validateStep]
  split_ifs <;> simp

theorem step_missing (m M : Int) (p : ValidationIssues × List String) (t : TeamInfo) :
    (validateStep m M p t).1.missing_info =
      p.1.missing_info ++
        (if t.team_name = "" ∨ t.members = [] then
          ["团队 " ++ t.team_name ++ " 信息不完整"] else []) := by
  simp only [validateStep]
  split_ifs <;> simp

theorem step_urls (m M : Int) (p : ValidationIssues × List String) (t : TeamInfo) :
    (validateStep m M p t).1.invalid_urls =
      p.1.invalid_urls ++
        (if t.team_repo_url ≠ "" ∧ ¬ ("https://github.com/".toList <+: t.team_repo_url.toList)
         then ["团队 " ++ t.team_name ++ " 的仓库地址格式不正确"] else []) := by
  simp only [validateStep]
  split_ifs <;> simp

theorem step_mci (m M : Int) (p : ValidationIssues × List String) (t : TeamInfo) :
    (validateStep m M p t).1.member_count_issues =
      p.1.member_count_issues ++ (memberCountMsg m M t).toList := by
  simp only [validateStep, memberCountMsg]
  split_ifs <;> simp

theorem step_set (m M : Int) (p : ValidationIssues × List String) (t : TeamInfo) :
    (validateStep m M p t).1.member_count_invalid_team_names =
      if (t.members.length : Int) < m ∨ M < (t.members.length : Int) then
        addToSet t.team_name p.1.member_count_invalid_team_names
      else p.1.member_count_invalid_team_names := by
  simp only [validateStep]
  split_ifs <;> first | rfl | omega

theorem loop_append (m M : Int) :
    ∀ (ts ts' : List TeamInfo) (p : ValidationIssues × List String),
      validateLoop m M (ts ++ ts') p = validateLoop m M ts' (validateLoop m M ts p)
  | [], _, _ => rfl
  | t :: ts, ts', p => by
    rw [List.cons_append, validateLoop, validateLoop, loop_append m M ts ts']

theorem loop_dup_count (m M : Int) (name : String) :
    ∀ (ts : List TeamInfo) (p : ValidationIssues × List String),
      ((validateLoop m M ts p).1.duplicate_teams).count name =
        p.1.duplicate_teams.count name +
          (if name ∈ p.2 then (ts.map TeamInfo.team_name).count name
           else (ts.map TeamInfo.team_name).count name - 1)
  | [], p => by simp [validateLoop]
  | t :: ts, p => by
    rw [validateLoop, loop_dup_count m M name ts, step_dup, step_seen,
      List.count_append, List.map_cons, List.count_cons]
    simp only [mem_addToSet, beq_iff_eq]
    by_cases hn : t.team_name = name
    · subst hn
      by_cases hs : t.team_name ∈ p.2
      · simp [hs]
        omega
      · simp [hs]
    · have h0 : List.count name (if t.team_name ∈ p.2 then [t.team_name] else []) = 0 := by
        split <;> simp [List.count_singleton', hn]
      have hn' : ¬ name = t.team_name := fun h => hn h.symm
      rw [h0]
      by_cases hs : name ∈ p.2 <;> simp [hn, hn', hs]

theorem loop_mci (m M : Int) :
    ∀ (ts : List TeamInfo) (p : ValidationIssues × List String),
      (validateLoop m M ts p).1.member_count_issues =
        p.1.member_count_issues ++ ts.filterMap (memberCountMsg m M)
  | [], p => by simp [validateLoop]
  | t :: ts, p => by
    rw [validateLoop, loop_mci m M ts, step_mci, List.filterMap_cons,
      List.append_assoc]
    cases h : memberCountMsg m M t <;> simp [h]

theorem loop_set_mem (m M : Int) (name : String) :
    ∀ (ts : List TeamInfo) (p : ValidationIssues × List String),
      name ∈ (validateLoop m M ts p).1.member_count_invalid_team_names ↔
        name ∈ p.1.member_count_invalid_team_names ∨
          ∃ t ∈ ts, t.team_name = name ∧
            ((t.members.length : Int) < m ∨ M < (t.members.length : Int))
  | [], p => by simp [validateLoop]
  | t :: ts, p => by
    rw [validateLoop, loop_set_mem m M name ts, step_set]
    constructor
    · rintro (h | h)
      · split at h
        · rcases (mem_addToSet _ _ _).1 h with rfl | h'
          · rename_i hc
            exact Or.inr ⟨t, List.mem_cons_self t ts, rfl, hc⟩
          · exact Or.inl h'
        · exact Or.inl h
      · rcases h with ⟨u, hu, hname, hviol⟩
        exact Or.inr ⟨u, List.mem_cons_of_mem t hu, hname, hviol⟩
    · rintro (h | ⟨u, hu, hname, hviol⟩)
      · left
        split
        · exact (mem_addToSet _ _ _).2 (Or.inr h)
        · exact h
      · rcases List.mem_cons.1 hu with rfl | hu'
        · left
          rw [if_pos hviol]
          exact (mem_addToSet _ _ _).2 (Or.inl hname.symm)
        · exact Or.inr ⟨u, hu', hname, hviol⟩

/-- C3: the validator records a duplicate-team finding for every occurrence
of a team name after its first occurrence in input order, and only those:
the number of duplicate findings for a name is exactly one less than its
number of occurrences (so unique names and first occurrences are never
flagged). -/
theorem claim_C3_duplicate_findings (ts : List TeamInfo) (minM maxM : Int)
    (name : String) :
    ((validate_teams ts minM maxM).duplicate_teams).count name =
      (ts.map TeamInfo.team_name).count name - 1 := by
  rw [validate_teams, loop_dup_count]
  simp [emptyIssues]

/-- C4: the validator records a member-count finding for a submission
exactly when its member count lies outside the inclusive bounds
`[minM, maxM]` — a "too few" finding when `count < minM` and a "too many"
finding when `count > maxM` — and the size-violation name set contains
exactly the team names of submissions violating either bound. -/
theorem claim_C4_member_count_policy (ts : List TeamInfo) (minM maxM : Int) :
    (validate_teams ts minM maxM).member_count_issues =
      ts.filterMap (memberCountMsg minM maxM) ∧
    ∀ name : String,
      name ∈ (validate_teams ts minM maxM).member_count_invalid_team_names ↔
        ∃ t ∈ ts, t.team_name = name ∧
          ((t.members.length : Int) < minM ∨ maxM < (t.members.length : Int)) := by
  constructor
  · rw [validate_teams, loop_mci]
    simp [emptyIssues]
  · intro name
    rw [validate_teams, loop_set_mem]
    simp [emptyIssues]

theorem loop_ext_missing (m M : Int) :
    ∀ (ts : List TeamInfo) (p : ValidationIssues × List String),
      ∃ e, (validateLoop m M ts p).1.missing_info = p.1.missing_info ++ e
  | [], _ => ⟨[], by simp [validateLoop]⟩
  | t :: ts, p => by
    obtain ⟨e, he⟩ := loop_ext_missing m M ts (validateStep m M p t)
    rw [validateLoop, he, step_missing, List.append_assoc]
    exact ⟨_, rfl⟩

theorem loop_ext_dup (m M : Int) :
    ∀ (ts : List TeamInfo) (p : ValidationIssues × List String),
      ∃ e, (validateLoop m M ts p).1.duplicate_teams = p.1.duplicate_teams ++ e
  | [], _ => ⟨[], by simp [validateLoop]⟩
  | t :: ts, p => by
    obtain ⟨e, he⟩ := loop_ext_dup m M ts (validateStep m M p t)
    rw [validateLoop, he, step_dup, List.append_assoc]
    exact ⟨_, rfl⟩

theorem loop_ext_urls (m M : Int) :
    ∀ (ts : List TeamInfo) (p : ValidationIssues × List String),
      ∃ e, (validateLoop m M ts p).1.invalid_urls = p.1.invalid_urls ++ e
  | [], _ => ⟨[], by simp [validateLoop]⟩
  | t :: ts, p => by
    obtain ⟨e, he⟩ := loop_ext_urls m M ts (validateStep m M p t)
    rw [validateLoop, he, step_urls, List.append_assoc]
    exact ⟨_, rfl⟩

theorem loop_ext_mci (m M : Int) :
    ∀ (ts : List TeamInfo) (p : ValidationIssues × List String),
      ∃ e, (validateLoop m M ts p).1.member_count_issues =
        p.1.member_count_issues ++ e
  | [], _ => ⟨[], by simp [validateLoop]⟩
  | t :: ts, p => by
    obtain ⟨e, he⟩ := loop_ext_mci m M ts (validateStep m M p t)
    rw [validateLoop, he, step_mci, List.append_assoc]
    exact ⟨_, rfl⟩

/-- C8: validation is observational.  The model of `main`'s validation
step hands the very same submission sequence to the renderers; and the
validator only appends findings: running it on an extended input sequence
extends every finding category without altering the findings already
produced, and only grows the size-violation name set.  It never raises: the
embedding of the loop body is a total function by construction. -/
theorem claim_C8_validation_observational
    (ts extra : List TeamInfo) (minM maxM : Int) :
    (validate_then_export_input ts minM maxM).2 = ts ∧
    (∃ e, (validate_teams (ts ++ extra) minM maxM).missing_info =
      (validate_teams ts minM maxM).missing_info ++ e) ∧
    (∃ e, (validate_teams (ts ++ extra) minM maxM).duplicate_teams =
      (validate_teams ts minM maxM).duplicate_teams ++ e) ∧
    (∃ e, (validate_teams (ts ++ extra) minM maxM).invalid_urls =
      (validate_teams ts minM maxM).invalid_urls ++ e) ∧
    (∃ e, (validate_teams (ts ++ extra) minM maxM).member_count_issues =
      (validate_teams ts minM maxM).member_count_issues ++ e) ∧
    (validate_teams ts minM maxM).member_count_invalid_team_names ⊆
      (validate_teams (ts ++ extra) minM maxM).member_count_invalid_team_names := by
  refine ⟨rfl, ?_, ?_, ?_, ?_, ?_⟩
  · rw [validate_teams, validate_teams, loop_append]
    exact loop_ext_missing minM maxM extra _
  · rw [validate_teams, validate_teams, loop_append]
    exact loop_ext_dup minM maxM extra _
  · rw [validate_teams, validate_teams, loop_append]
    exact loop_ext_urls minM maxM extra _
  · rw [validate_teams, validate_teams, loop_append]
    exact loop_ext_mci minM maxM extra _
  · intro name h
    rw [validate_teams, loop_set_mem] at h ⊢
    rcases h with h | ⟨t, ht, h1, h2⟩
    · exact Or.inl h
    · exact Or.inr ⟨t, List.mem_append_left extra ht, h1, h2⟩

theorem mk_empty_iff (l : List Char) : String.mk l = "" ↔ l = [] := by
  constructor
  · intro h
    exact congrArg String.data h
  · intro h
    rw [h]

/-- C6: extraction returns a Submission exactly when the marker gate
passes, the team-name pattern matches with a nonempty stripped capture, and
at least one member row survives filtering; any body containing neither the
submission-marker phrase nor the team-name phrase yields absent; and a
missing optional field (account, repository URL, submission time) is
rendered as the empty string rather than causing rejection. -/
theorem claim_C6_result_policy (body : List Char) (id : Int) (author : String) :
    ((parseChars body id author).isSome ↔
      ((submitMarker <:+: body ∨ nameMarker <:+: body) ∧
        ∃ g, reSearchField teamNameLbl body = some g ∧ pyStrip g ≠ [] ∧
          extractMembers body ≠ [])) ∧
    (¬ (submitMarker <:+: body ∨ nameMarker <:+: body) →
      parseChars body id author = none) ∧
    (∀ info, parseChars body id author = some info →
      (reSearchField accountLbl body = none → info.team_github_account = "") ∧
      (reSearchField repoLbl body = none → info.team_repo_url = "") ∧
      (reSearchField timeLbl body = none → info.submission_time = "")) := by
  refine ⟨?_, ?_, ?_⟩
  · rw [parseChars]
    split
    · rename_i hgate
      split
      · rename_i hsearch
        simp only [Option.isSome_none, Bool.false_eq_true, false_iff]
        rintro ⟨-, g, hg, -, -⟩
        rw [hsearch] at hg
        cases hg
      · rename_i g hsearch
        split
        · rename_i hcond
          simp only [Option.isSome_some, true_iff]
          exact ⟨hgate, g, hsearch,
            fun hnil => hcond.1 ((mk_empty_iff _).2 hnil), hcond.2⟩
        · rename_i hcond
          simp only [Option.isSome_none, Bool.false_eq_true, false_iff]
          rintro ⟨-, g', hg', hstrip, hmem⟩
          rw [hsearch] at hg'
          cases hg'
          exact hcond ⟨fun hmk => hstrip ((mk_empty_iff _).1 hmk), hmem⟩
    · rename_i hgate
      simp only [Option.isSome_none, Bool.false_eq_true, false_iff]
      rintro ⟨hg, -⟩
      exact hgate hg
  · intro h
    rw [parseChars, if_neg h]
  · intro info h
    rw [parseChars] at h
    split at h
    · split at h
      · exact absurd h (by simp)
      · split at h
        · cases h
          refine ⟨?_, ?_, ?_⟩ <;> intro hn <;> simp [fieldValue, hn]
        · exact absurd h (by simp)
    · exact absurd h (by simp)

/-- Witness for C6: a marker-free body is rejected, `c6Body` (team name and
one member row, no optional fields) is accepted, and its extracted account
field is the empty string. -/
theorem claim_C6_result_policy_witness :
    parseChars ("hello".toList) 0 ("u") = none ∧
      (parseChars c6Body 7 ("w")).isSome ∧
      c6Team.team_github_account = "" := by
  refine ⟨?_, ?_, ?_⟩
  · exact (claim_C6_result_policy ("hello".toList) 0 ("u")).2.1 (by decide)
  · exact ((claim_C6_result_policy c6Body 7 ("w")).1).2
      ⟨by decide, ['X'], by decide, by decide, by decide⟩
  · exact ((claim_C6_result_policy c6Body 7 ("w")).2.2 c6Team (by decide)).1
      (by decide)

/-! ### Scanner lemmas -/

theorem takeWhileAppend {p : Char → Bool} :
    ∀ (a : List Char) (x : Char) (r : List Char),
      (∀ c ∈ a, p c = true) → p x = false →
      (a ++ x :: r).takeWhile p = a ∧ (a ++ x :: r).dropWhile p = x :: r
  | [], x, r, _, hx => by
    simp [List.takeWhile_cons, List.dropWhile_cons, hx]
  | c :: a, x, r, ha, hx => by
    have hc : p c = true := ha c (List.mem_cons_self c a)
    have ih := takeWhileAppend a x r (fun d hd => ha d (List.mem_cons_of_mem c hd)) hx
    simp [List.takeWhile_cons, List.dropWhile_cons, hc, ih.1, ih.2]

theorem dropWhileHeadFalse {p : Char → Bool} :
    ∀ (a : List Char) (d : Char) (l : List Char),
      a.dropWhile p = d :: l → p d = false
  | [], _, _, h => by cases h
  | c :: a, d, l, h => by
    rw [List.dropWhile_cons] at h
    split at h
    · exact dropWhileHeadFalse a d l h
    · rename_i hc
      cases h
      simpa using hc

theorem dropTakeWhileLength {p : Char → Bool} :
    ∀ a : List Char, a.drop (a.takeWhile p).length = a.dropWhile p
  | [] => rfl
  | c :: a => by
    by_cases hc : p c = true
    · simp [List.takeWhile_cons, List.dropWhile_cons, hc, dropTakeWhileLength a]
    · simp [List.takeWhile_cons, List.dropWhile_cons, hc]

theorem dropWhileIdem {p : Char → Bool} :
    ∀ a : List Char, (a.dropWhile p).dropWhile p = a.dropWhile p
  | [] => rfl
  | c :: a => by
    by_cases hc : p c = true
    · simp [List.dropWhile_cons, hc, dropWhileIdem a]
    · simp [List.dropWhile_cons, hc]

theorem pyStrip_dropWhile (a : List Char) :
    pyStrip (a.dropWhile isPySpace) = pyStrip a := by
  rw [pyStrip, pyStrip, dropWhileIdem]

theorem pyStrip_ne_nil {c : List Char} (h : pyStrip c ≠ []) : c ≠ [] := by
  intro hc
  subst hc
  exact h rfl

theorem takeCell_eq (c rest : List Char)
    (hc : ∀ ch ∈ c, ch ≠ '|') (hne : c ≠ []) :
    takeCell (c ++ '|' :: rest) = some (c, rest) := by
  have hall : ∀ ch ∈ c, notPipe ch = true := by
    intro ch hm
    simp [notPipe, hc ch hm]
  have hx : notPipe '|' = false := by simp [notPipe]
  have h := takeWhileAppend c '|' rest hall hx
  simp only [takeCell, h.2, h.1]
  simp [hne]

theorem takeCell_length :
    ∀ (cs cell rest : List Char), takeCell cs = some (cell, rest) →
      rest.length < cs.length := by
  intro cs cell rest h
  rw [takeCell] at h
  cases hd : cs.dropWhile notPipe with
  | nil => simp [hd] at h
  | cons d ds =>
    simp only [hd] at h
    split at h
    · simp at h
    · split at h
      · cases h
        have hlen := congrArg List.length
          (List.takeWhile_append_dropWhile (p := notPipe) (l := cs))
        rw [hd] at hlen
        simp only [List.length_append, List.length_cons] at hlen
        omega
      · simp at h

theorem tryRow_eq (c1 c2 c3 post : List Char)
    (h1 : ∀ ch ∈ c1, ch ≠ '|') (h1n : c1 ≠ [])
    (h2 : ∀ ch ∈ c2, ch ≠ '|') (h2n : c2 ≠ [])
    (h3 : ∀ ch ∈ c3, ch ≠ '|') (h3n : c3 ≠ []) :
    tryRow (c1 ++ '|' :: (c2 ++ '|' :: (c3 ++ '|' :: post))) =
      some ((c1, c2, c3), post) := by
  simp only [tryRow, takeCell_eq c1 _ h1 h1n, takeCell_eq c2 _ h2 h2n,
    takeCell_eq c3 _ h3 h3n]

theorem tryRow_length :
    ∀ (cs : List Char) (t : List Char × List Char × List Char) (rest : List Char),
      tryRow cs = some (t, rest) → rest.length < cs.length := by
  intro cs t rest h
  rw [tryRow] at h
  cases h1 : takeCell cs with
  | none => rw [h1] at h; cases h
  | some p1 =>
    obtain ⟨a1, r1⟩ := p1
    simp only [h1] at h
    cases h2 : takeCell r1 with
    | none => rw [h2] at h; cases h
    | some p2 =>
      obtain ⟨a2, r2⟩ := p2
      simp only [h2] at h
      cases h3 : takeCell r2 with
      | none => rw [h3] at h; cases h
      | some p3 =>
        obtain ⟨a3, r3⟩ := p3
        simp only [h3] at h
        have l1 := takeCell_length cs a1 r1 h1
        have l2 := takeCell_length r1 a2 r2 h2
        have l3 := takeCell_length r2 a3 r3 h3
        cases h
        omega

theorem scanAux_irrel :
    ∀ (f1 f2 : Nat) (cs : List Char), cs.length ≤ f1 → cs.length ≤ f2 →
      scanAux f1 cs = scanAux f2 cs
  | 0, f2, cs, h1, _ => by
    have hnil : cs = [] := List.length_eq_zero.1 (Nat.le_zero.1 h1)
    subst hnil
    cases f2 <;> rfl
  | _ + 1, f2, [], _, _ => by cases f2 <;> rfl
  | _ + 1, 0, c :: cs, _, h2 => by simp at h2
  | f1 + 1, f2 + 1, c :: cs, h1, h2 => by
    have hcs1 : cs.length ≤ f1 := by
      simp only [List.length_cons] at h1
      omega
    have hcs2 : cs.length ≤ f2 := by
      simp only [List.length_cons] at h2
      omega
    rw [scanAux, scanAux]
    by_cases hc : c = '|'
    · rw [if_pos hc, if_pos hc]
      cases htr : tryRow cs with
      | none => exact scanAux_irrel f1 f2 cs hcs1 hcs2
      | some pr =>
        obtain ⟨t, rest'⟩ := pr
        have hl := tryRow_length cs t rest' htr
        show t :: scanAux f1 rest' = t :: scanAux f2 rest'
        rw [scanAux_irrel f1 f2 rest' (by omega) (by omega)]
    · rw [if_neg hc, if_neg hc]
      exact scanAux_irrel f1 f2 cs hcs1 hcs2

theorem scanTriples_cons_skip (c : Char) (rest : List Char) (hc : c ≠ '|') :
    scanTriples (c :: rest) = scanTriples rest := by
  rw [scanTriples, scanTriples, List.length_cons, scanAux, if_neg hc]

theorem scanTriples_append_skip :
    ∀ (a b : List Char), (∀ c ∈ a, c ≠ '|') →
      scanTriples (a ++ b) = scanTriples b
  | [], _, _ => rfl
  | c :: a, b, h => by
    rw [List.cons_append,
      scanTriples_cons_skip c (a ++ b) (h c (List.mem_cons_self c a)),
      scanTriples_append_skip a b (fun d hd => h d (List.mem_cons_of_mem c hd))]

theorem scanTriples_row (c1 c2 c3 post : List Char)
    (h1 : ∀ ch ∈ c1, ch ≠ '|') (h1n : c1 ≠ [])
    (h2 : ∀ ch ∈ c2, ch ≠ '|') (h2n : c2 ≠ [])
    (h3 : ∀ ch ∈ c3, ch ≠ '|') (h3n : c3 ≠ []) :
    scanTriples ('|' :: (c1 ++ '|' :: (c2 ++ '|' :: (c3 ++ '|' :: post)))) =
      (c1, c2, c3) :: scanTriples post := by
  have htr := tryRow_eq c1 c2 c3 post h1 h1n h2 h2n h3 h3n
  have hle : post.length ≤
      (c1 ++ '|' :: (c2 ++ '|' :: (c3 ++ '|' :: post))).length := by
    simp only [List.length_append, List.length_cons]
    omega
  rw [scanTriples, List.length_cons, scanAux, if_pos rfl]
  simp only [htr]
  rw [scanTriples]
  exact congrArg _ (scanAux_irrel _ _ post hle (Nat.le_refl _))

theorem scanTriples_rowChars (r : List Char × List Char × List Char)
    (rest : List Char)
    (h1 : ∀ ch ∈ r.1, ch ≠ '|') (h1n : r.1 ≠ [])
    (h2 : ∀ ch ∈ r.2.1, ch ≠ '|') (h2n : r.2.1 ≠ [])
    (h3 : ∀ ch ∈ r.2.2, ch ≠ '|') (h3n : r.2.2 ≠ []) :
    scanTriples (rowChars r ++ rest) = r :: scanTriples rest := by
  obtain ⟨c1, c2, c3⟩ := r
  have hrow := scanTriples_row c1 c2 c3 ('\n' :: rest) h1 h1n h2 h2n h3 h3n
  have hassoc : rowChars (c1, c2, c3) ++ rest =
      '|' :: (c1 ++ '|' :: (c2 ++ '|' :: (c3 ++ '|' :: ('\n' :: rest)))) := by
    simp [rowChars, List.append_assoc]
  rw [hassoc, hrow, scanTriples_cons_skip '\n' rest (by decide)]

theorem scanTriples_rows :
    ∀ rows : List (List Char × List Char × List Char),
      (∀ r ∈ rows, memberRowOk r) →
      scanTriples (rows.flatMap rowChars) = rows
  | [], _ => rfl
  | r :: rows, h => by
    obtain ⟨hp1, hp2, hp3, -, -, -, -, -⟩ := h r (List.mem_cons_self r rows)
    rw [List.flatMap_cons,
      scanTriples_rowChars r _
        (fun ch hm => (hp1.1 ch hm).1) (pyStrip_ne_nil hp1.2)
        (fun ch hm => (hp2.1 ch hm).1) (pyStrip_ne_nil hp2.2)
        (fun ch hm => (hp3.1 ch hm).1) (pyStrip_ne_nil hp3.2),
      scanTriples_rows rows (fun r' hr' => h r' (List.mem_cons_of_mem r hr'))]

theorem mkMember_eq (r : List Char × List Char × List Char)
    (h : memberRowOk r) : mkMember? r = some (rowMember r) := by
  obtain ⟨hp1, hp2, hp3, hh1, hh2, hd1, hd2, hd3⟩ := h
  have hcond : ¬ (pyStrip r.1 ∈ headerNameCells ∨ pyStrip r.2.1 ∈ headerIdCells ∨
      dashes <:+: pyStrip r.1 ∨ dashes <:+: pyStrip r.2.1 ∨
      dashes <:+: pyStrip r.2.2) := by
    rintro (h | h | h | h | h)
    exacts [hh1 h, hh2 h, hd1 h, hd2 h, hd3 h]
  rw [mkMember?, if_neg hcond, if_pos ⟨hp1.2, hp2.2, hp3.2⟩, rowMember]

theorem filterMap_mkMember :
    ∀ rows : List (List Char × List Char × List Char),
      (∀ r ∈ rows, memberRowOk r) →
      rows.filterMap mkMember? = rows.map rowMember
  | [], _ => rfl
  | r :: rows, h => by
    rw [List.filterMap_cons, mkMember_eq r (h r (List.mem_cons_self r rows)),
      filterMap_mkMember rows (fun r' hr' => h r' (List.mem_cons_of_mem r hr')),
      List.map_cons]

theorem takeWhileAppendLeft {p : Char → Bool} :
    ∀ (a b : List Char), a.dropWhile p ≠ [] →
      (a ++ b).takeWhile p = a.takeWhile p ∧
        (a ++ b).dropWhile p = a.dropWhile p ++ b
  | [], _, h => absurd rfl h
  | c :: a, b, h => by
    by_cases hc : p c = true
    · have ih := takeWhileAppendLeft a b
        (by simpa [List.dropWhile_cons, hc] using h)
      simp [List.takeWhile_cons, List.dropWhile_cons, hc, ih.1, ih.2]
    · simp [List.takeWhile_cons, List.dropWhile_cons, hc]

theorem takeWhileLengthLe {p : Char → Bool} :
    ∀ a : List Char, (a.takeWhile p).length ≤ a.length
  | [] => Nat.le_refl 0
  | c :: a => by
    rw [List.takeWhile_cons]
    split
    · simpa using Nat.succ_le_succ (takeWhileLengthLe a)
    · simp

theorem matchWsDotPlus_name (name rest : List Char)
    (hnw : ∀ ch ∈ name, ch ≠ '\n')
    (hne : name.dropWhile isPySpace ≠ []) :
    matchWsDotPlus (' ' :: (name ++ '\n' :: rest)) =
      some (name.dropWhile isPySpace) := by
  have hw := takeWhileAppendLeft (p := isPySpace) name ('\n' :: rest) hne
  have hsp : isPySpace ' ' = true := by decide
  have htw : ((' ' :: (name ++ '\n' :: rest)).takeWhile isPySpace).length =
      (name.takeWhile isPySpace).length + 1 := by
    rw [List.takeWhile_cons, if_pos hsp, hw.1, List.length_cons]
  have hdr : (' ' :: (name ++ '\n' :: rest)).drop
      ((name.takeWhile isPySpace).length + 1) =
      name.dropWhile isPySpace ++ '\n' :: rest := by
    rw [List.drop_succ_cons,
      List.drop_append_of_le_length (takeWhileLengthLe name),
      dropTakeWhileLength]
  rw [matchWsDotPlus, htw, wsDotAux, hdr]
  cases hd : name.dropWhile isPySpace with
  | nil => exact absurd hd hne
  | cons d l =>
    have hdf : isPySpace d = false := dropWhileHeadFalse name d l hd
    have hdn : d ≠ '\n' := by
      intro h
      rw [h] at hdf
      exact absurd hdf (by decide)
    have hall : ∀ ch ∈ d :: l, notNL ch = true := by
      intro ch hm
      have : ch ∈ name := (List.dropWhile_sublist (p := isPySpace)).subset (hd ▸ hm)
      simp [notNL, hnw ch this]
    have hnl : notNL '\n' = false := by decide
    have htk := takeWhileAppend (d :: l) '\n' rest hall hnl
    simp only [List.cons_append, List.head?_cons, hdn, ite_true, if_pos]
    rw [← List.cons_append, htk.1]
    simp [hdn]

theorem tryLabel_template (name tail : List Char)
    (hnw : ∀ ch ∈ name, ch ≠ '\n')
    (hne : name.dropWhile isPySpace ≠ []) :
    tryLabelAt teamNameLbl
      ('*' :: '*' :: '团' :: '队' :: '名' :: '称' :: '：' :: '*' :: '*' :: ' ' ::
        (name ++ '\n' :: tail)) = some (name.dropWhile isPySpace) := by
  have hlbl : teamNameLbl = ['*', '*', '团', '队', '名', '称'] := by decide
  have hpre : teamNameLbl <+:
      ('*' :: '*' :: '团' :: '队' :: '名' :: '称' :: '：' :: '*' :: '*' :: ' ' ::
        (name ++ '\n' :: tail)) := by
    refine ⟨'：' :: '*' :: '*' :: ' ' :: (name ++ '\n' :: tail), ?_⟩
    rw [hlbl]
    rfl
  have hlen : teamNameLbl.length = 6 := by decide
  rw [tryLabelAt, if_pos hpre, hlen]
  show matchAfterLabel ('：' :: '*' :: '*' :: ' ' :: (name ++ '\n' :: tail)) = _
  rw [matchAfterLabel, if_pos (Or.inl rfl)]
  exact matchWsDotPlus_name name tail hnw hne

theorem reSearch_template (name tail : List Char)
    (hnw : ∀ ch ∈ name, ch ≠ '\n')
    (hne : name.dropWhile isPySpace ≠ []) :
    reSearchField teamNameLbl ("**团队名称：** ".toList ++ (name ++ '\n' :: tail)) =
      some (name.dropWhile isPySpace) := by
  have hhead : "**团队名称：** ".toList ++ (name ++ '\n' :: tail) =
      '*' :: '*' :: '团' :: '队' :: '名' :: '称' :: '：' :: '*' :: '*' :: ' ' ::
        (name ++ '\n' :: tail) := by
    have : "**团队名称：** ".toList =
        ['*', '*', '团', '队', '名', '称', '：', '*', '*', ' '] := by decide
    rw [this]
    rfl
  rw [hhead, reSearchField]
  simp only [tryLabel_template name tail hnw hne]

theorem gate_template (name : List Char) (tail : List Char) :
    nameMarker <:+: ("**团队名称：** ".toList ++ (name ++ '\n' :: tail)) := by
  refine ⟨['*', '*'], "：** ".toList ++ (name ++ '\n' :: tail), ?_⟩
  have h1 : ['*', '*'] ++ nameMarker ++ "：** ".toList = "**团队名称：** ".toList := by
    decide
  rw [← h1]
  simp [List.append_assoc]

/-- The submission produced from a well-formed template. -/
theorem parse_template_eq (name : List Char)
    (rows : List (List Char × List Char × List Char)) (id : Int) (author : String)
    (hname : plainName name) (hne : rows ≠ [])
    (hrows : ∀ r ∈ rows, memberRowOk r) :
    parseChars (templateBody name rows) id author =
      some ⟨String.mk (pyStrip name), rows.map rowMember,
        fieldValue accountLbl (templateBody name rows),
        fieldValue repoLbl (templateBody name rows),
        fieldValue timeLbl (templateBody name rows), id, author⟩ := by
  have hdne : name.dropWhile isPySpace ≠ [] := by
    intro h
    apply hname.2
    rw [← pyStrip_dropWhile, h]
    rfl
  have hnw : ∀ ch ∈ name, ch ≠ '\n' := fun ch hm => (hname.1 ch hm).2.2
  have htpl : templateBody name rows =
      "**团队名称：** ".toList ++ (name ++ '\n' :: rows.flatMap rowChars) := by
    simp [templateBody, nameLine, List.append_assoc]
  have hgate : submitMarker <:+: templateBody name rows ∨
      nameMarker <:+: templateBody name rows := by
    rw [htpl]
    exact Or.inr (gate_template name _)
  have hsearch : reSearchField teamNameLbl (templateBody name rows) =
      some (name.dropWhile isPySpace) := by
    rw [htpl]
    exact reSearch_template name _ hnw hdne
  have hmem : extractMembers (templateBody name rows) = rows.map rowMember := by
    have htpl2 : templateBody name rows =
        ("**团队名称：** ".toList ++ name ++ ['\n']) ++ rows.flatMap rowChars := by
      simp [templateBody, nameLine, List.append_assoc]
    have hpipe : ∀ c ∈ ("**团队名称：** ".toList ++ name ++ ['\n']), c ≠ '|' := by
      intro c hcm
      rcases List.mem_append.1 hcm with hcm | hcm
      · rcases List.mem_append.1 hcm with hcm | hcm
        · exact (by decide : ∀ c ∈ "**团队名称：** ".toList, c ≠ '|') c hcm
        · exact (hname.1 c hcm).1
      · simp only [List.mem_singleton] at hcm
        subst hcm
        decide
    rw [extractMembers, htpl2, scanTriples_append_skip _ _ hpipe,
      scanTriples_rows rows hrows, filterMap_mkMember rows hrows]
  have hmk : String.mk (pyStrip (name.dropWhile isPySpace)) =
      String.mk (pyStrip name) := by
    rw [pyStrip_dropWhile]
  rw [parseChars, if_pos hgate]
  simp only [hsearch]
  rw [if_pos ⟨by
      rw [hmk]
      intro hmkeq
      exact hname.2 ((mk_empty_iff _).1 hmkeq), by
      rw [hmem]
      intro hmapnil
      exact hne (List.map_eq_nil_iff.1 hmapnil)⟩]
  rw [hmk, hmem]

/-- C5: a three-cell table row is counted as a member only if all three
cells are nonempty after trimming; header and separator rows (known header
labels or cells containing a dash run) are never counted; and for any
well-formed template with `N ≥ 1` member rows and no header/separator
contamination, extraction yields a Submission with exactly `N` members in
source row order. -/
theorem claim_C5_member_row_filter :
    (∀ (r : List Char × List Char × List Char) (tm : TeamMember),
      mkMember? r = some tm →
        pyStrip r.1 ≠ [] ∧ pyStrip r.2.1 ≠ [] ∧ pyStrip r.2.2 ≠ []) ∧
    (∀ r : List Char × List Char × List Char,
      pyStrip r.1 ∈ headerNameCells ∨ pyStrip r.2.1 ∈ headerIdCells ∨
        dashes <:+: pyStrip r.1 ∨ dashes <:+: pyStrip r.2.1 ∨
        dashes <:+: pyStrip r.2.2 → mkMember? r = none) ∧
    (∀ (name : List Char) (rows : List (List Char × List Char × List Char))
        (id : Int) (author : String),
      plainName name → rows ≠ [] → (∀ r ∈ rows, memberRowOk r) →
      parseChars (templateBody name rows) id author =
        some ⟨String.mk (pyStrip name), rows.map rowMember,
          fieldValue accountLbl (templateBody name rows),
          fieldValue repoLbl (templateBody name rows),
          fieldValue timeLbl (templateBody name rows), id, author⟩ ∧
        (rows.map rowMember).length = rows.length) := by
  refine ⟨?_, ?_, ?_⟩
  · intro r tm h
    rw [mkMember?] at h
    split at h
    · exact Option.noConfusion h
    · split at h
      · rename_i hc
        exact hc
      · exact Option.noConfusion h
  · intro r hc
    rw [mkMember?, if_pos hc]
  · intro name rows id author hname hne hrows
    exact ⟨parse_template_eq name rows id author hname hne hrows,
      List.length_map rows rowMember⟩

/-- Witness for C5: the two row-filter parts at concrete rows, and the
template part at a one-row template with team name `Team Alpha`. -/
theorem claim_C5_member_row_filter_witness :
    (pyStrip ("a".toList) ≠ [] ∧ pyStrip ("b".toList) ≠ [] ∧
      pyStrip ("c".toList) ≠ []) ∧
    mkMember? ("成员姓名".toList, "x".toList, "y".toList) = none ∧
    (parseChars (templateBody c5Name c5Rows) 3 ("u") =
      some ⟨String.mk (pyStrip c5Name), c5Rows.map rowMember,
        fieldValue accountLbl (templateBody c5Name c5Rows),
        fieldValue repoLbl (templateBody c5Name c5Rows),
        fieldValue timeLbl (templateBody c5Name c5Rows), 3, "u"⟩ ∧
      (c5Rows.map rowMember).length = c5Rows.length) := by
  refine ⟨?_, ?_, ?_⟩
  · exact claim_C5_member_row_filter.1 ("a".toList, "b".toList, "c".toList)
      ⟨"a", "b", "c"⟩ (by decide)
  · exact claim_C5_member_row_filter.2.1
      ("成员姓名".toList, "x".toList, "y".toList) (by decide)
  · exact claim_C5_member_row_filter.2.2 c5Name c5Rows 3 ("u")
      (by unfold plainName; decide) (by decide)
      (by unfold memberRowOk plainCell; decide)

/-- C9 counterexample: the claim as frozen fails on the non-overlapping
scan — in `|a|b|c|d|e|f|g|` the cells after the third are not silently
ignored (they produce the second candidate `(e,f,g)`), and in `x|y|a|b|c|`
the occurrence of the three consecutive nonempty cells `a`, `b`, `c`
yields no candidate because the stray earlier pipe shifts the match to
`(y,a,b)`. -/
theorem claim_C9_counterexample :
    scanTriples ("|a|b|c|d|e|f|g|".toList) =
      [(['a'], ['b'], ['c']), (['e'], ['f'], ['g'])] ∧
    scanTriples ("x|y|a|b|c|".toList) = [(['y'], ['a'], ['b'])] := by
  decide

/-- C9 amended: the extracted members are exactly the filtered scan of the
whole body, and after a pipe-free stretch any three consecutive
pipe-delimited nonempty cells — anywhere in the body, not only inside the
member table — yield a candidate row; the scan is non-overlapping and
resumes after each match's closing pipe, so a row with four pipe-delimited
columns contributes only its first three cells (the fourth is ignored),
while a row with seven columns contributes a second candidate built from
its fifth to seventh cells. -/
theorem claim_C9_pipe_rows_anywhere :
    (∀ (body : List Char) (id : Int) (author : String) (info : TeamInfo),
      parseChars body id author = some info →
      info.members = (scanTriples body).filterMap mkMember?) ∧
    (∀ pre c1 c2 c3 post : List Char, (∀ ch ∈ pre, ch ≠ '|') →
      (∀ ch ∈ c1, ch ≠ '|') → c1 ≠ [] →
      (∀ ch ∈ c2, ch ≠ '|') → c2 ≠ [] →
      (∀ ch ∈ c3, ch ≠ '|') → c3 ≠ [] →
      scanTriples (pre ++ '|' :: (c1 ++ '|' :: (c2 ++ '|' :: (c3 ++ '|' :: post)))) =
        (c1, c2, c3) :: scanTriples post) ∧
    (∀ c1 c2 c3 c4 : List Char,
      (∀ ch ∈ c1, ch ≠ '|') → c1 ≠ [] →
      (∀ ch ∈ c2, ch ≠ '|') → c2 ≠ [] →
      (∀ ch ∈ c3, ch ≠ '|') → c3 ≠ [] →
      (∀ ch ∈ c4, ch ≠ '|') →
      scanTriples ('|' :: (c1 ++ '|' :: (c2 ++ '|' :: (c3 ++ '|' :: (c4 ++ ['|']))))) =
        [(c1, c2, c3)]) ∧
    (∀ c1 c2 c3 c4 c5 c6 c7 post : List Char,
      (∀ ch ∈ c1, ch ≠ '|') → c1 ≠ [] →
      (∀ ch ∈ c2, ch ≠ '|') → c2 ≠ [] →
      (∀ ch ∈ c3, ch ≠ '|') → c3 ≠ [] →
      (∀ ch ∈ c4, ch ≠ '|') →
      (∀ ch ∈ c5, ch ≠ '|') → c5 ≠ [] →
      (∀ ch ∈ c6, ch ≠ '|') → c6 ≠ [] →
      (∀ ch ∈ c7, ch ≠ '|') → c7 ≠ [] →
      scanTriples ('|' :: (c1 ++ '|' :: (c2 ++ '|' :: (c3 ++ '|' ::
          (c4 ++ '|' :: (c5 ++ '|' :: (c6 ++ '|' :: (c7 ++ '|' :: post)))))))) =
        (c1, c2, c3) :: (c5, c6, c7) :: scanTriples post) := by
  refine ⟨?_, ?_, ?_, ?_⟩
  · intro body id author info h
    rw [parseChars] at h
    split at h
    · split at h
      · exact Option.noConfusion h
      · split at h
        · cases h
          rfl
        · exact Option.noConfusion h
    · exact Option.noConfusion h
  · intro pre c1 c2 c3 post hpre h1 h1n h2 h2n h3 h3n
    rw [scanTriples_append_skip pre _ hpre,
      scanTriples_row c1 c2 c3 post h1 h1n h2 h2n h3 h3n]
  · intro c1 c2 c3 c4 h1 h1n h2 h2n h3 h3n h4
    rw [scanTriples_row c1 c2 c3 (c4 ++ ['|']) h1 h1n h2 h2n h3 h3n,
      scanTriples_append_skip c4 ['|'] h4]
    rfl
  · intro c1 c2 c3 c4 c5 c6 c7 post h1 h1n h2 h2n h3 h3n h4 h5 h5n h6 h6n h7 h7n
    rw [scanTriples_row c1 c2 c3
        (c4 ++ '|' :: (c5 ++ '|' :: (c6 ++ '|' :: (c7 ++ '|' :: post))))
        h1 h1n h2 h2n h3 h3n,
      scanTriples_append_skip c4 _ h4,
      scanTriples_row c5 c6 c7 post h5 h5n h6 h6n h7 h7n]

/-- Witness for C9 (amended): a pipe row inside running prose is scanned, a
five-pipe row yields only its first three cells, an eight-pipe row yields
two candidates, and the members of the `c6Body` parse are the filtered
scan of the body. -/
theorem claim_C9_pipe_rows_anywhere_witness :
    scanTriples ("no table here ".toList ++
        '|' :: ("a".toList ++ '|' :: ("b".toList ++ '|' :: ("c".toList ++ '|' :: [])))) =
      [("a".toList, "b".toList, "c".toList)] ∧
    scanTriples ('|' :: ("a".toList ++ '|' :: ("b".toList ++ '|' ::
        ("c".toList ++ '|' :: ("d".toList ++ ['|']))))) =
      [("a".toList, "b".toList, "c".toList)] ∧
    scanTriples ('|' :: ("a".toList ++ '|' :: ("b".toList ++ '|' ::
        ("c".toList ++ '|' :: ("d".toList ++ '|' :: ("e".toList ++ '|' ::
          ("f".toList ++ '|' :: ("g".toList ++ '|' :: [])))))))) =
      [("a".toList, "b".toList, "c".toList), ("e".toList, "f".toList, "g".toList)] ∧
    c6Team.members = (scanTriples c6Body).filterMap mkMember? := by
  refine ⟨?_, ?_, ?_, ?_⟩
  · exact claim_C9_pipe_rows_anywhere.2.1 ("no table here ".toList)
      ("a".toList) ("b".toList) ("c".toList) [] (by decide) (by decide)
      (by decide) (by decide) (by decide) (by decide) (by decide)
  · exact claim_C9_pipe_rows_anywhere.2.2.1 ("a".toList) ("b".toList)
      ("c".toList) ("d".toList) (by decide) (by decide) (by decide)
      (by decide) (by decide) (by decide) (by decide)
  · exact claim_C9_pipe_rows_anywhere.2.2.2 ("a".toList) ("b".toList)
      ("c".toList) ("d".toList) ("e".toList) ("f".toList) ("g".toList) []
      (by decide) (by decide) (by decide) (by decide) (by decide) (by decide)
      (by decide) (by decide) (by decide) (by decide) (by decide) (by decide)
      (by decide)
  · exact claim_C9_pipe_rows_anywhere.1 c6Body 7 ("w") c6Team (by decide)

/-- C7 counterexample: for the input sequence `[S(1 member), B(2 members)]`
the member-level table of the members CSV (input order: S then B) differs
from the member-level table of the Markdown report (canonical order: B then
S), so the four formats do not consume one canonical ordering. -/
theorem claim_C7_counterexample :
    (export_members_to_csv_rows [dummyTeam ("S") 1, dummyTeam ("B") 2]).tail ≠
      export_to_markdown_member_rows [dummyTeam ("S") 1, dummyTeam ("B") 2] := by
  decide

/-- C7 amended: the member-level table of the Markdown report renders the
canonically sorted sequence, while the member-level table of the members
CSV renders the input sequence unsorted; the two member tables coincide
whenever the input sequence is already in canonical order. -/
theorem claim_C7_member_table_orders (ts : List TeamInfo)
    (h : sort_teams_by_member_count ts = ts) :
    export_to_markdown_member_rows ts = (export_members_to_csv_rows ts).tail := by
  rw [export_to_markdown_member_rows, h, export_members_to_csv_rows,
    List.tail_cons]

/-- Witness for C7 (amended) at an input already in canonical order. -/
theorem claim_C7_member_table_orders_witness :
    export_to_markdown_member_rows [dummyTeam ("B") 2, dummyTeam ("S") 1] =
      (export_members_to_csv_rows [dummyTeam ("B") 2, dummyTeam ("S") 1]).tail :=
  claim_C7_member_table_orders _ (by decide)

theorem insertByCount_perm (t : TeamInfo) :
    ∀ l : List TeamInfo, (insertByCount t l).Perm (t :: l)
  | [] => List.Perm.refl _
  | u :: l => by
    rw [insertByCount]
    split
    · exact (List.Perm.cons u (insertByCount_perm t l)).trans
        (List.Perm.swap t u l)
    · exact List.Perm.refl _

theorem sortTeams_perm :
    ∀ ts : List TeamInfo, (sort_teams_by_member_count ts).Perm ts
  | [] => List.Perm.refl _
  | t :: ts =>
    (insertByCount_perm t _).trans (List.Perm.cons t (sortTeams_perm ts))

/-- C10: no rendering operation mutates its input: the state-passing models
of `export_to_csv`, `export_to_markdown`, `export_to_html`, the card view
generator and the compact table view generator all return the caller's
submission list unchanged (the source only binds fresh sorted lists and
reads record fields), and the sorted list each of them builds is a
permutation containing exactly the input records. -/
theorem claim_C10_renderers_pure (ts : List TeamInfo) (inv mci : List String) :
    (export_to_csv_model ts inv mci).2 = ts ∧
    (export_to_markdown_model ts inv).2 = ts ∧
    (export_to_html_model ts inv).2 = ts ∧
    (generate_cards_view_model ts).2 = ts ∧
    (generate_compact_table_view_model ts inv).2 = ts ∧
    (validate_then_export_input ts 1 5).2 = ts ∧
    (sort_teams_by_member_count ts).Perm ts :=
  ⟨rfl, rfl, rfl, rfl, rfl, rfl, sortTeams_perm ts⟩

end TeamCollector
